import Mathlib

/-!
Verification development for the csi_train_service repository (a Node/Express
service pricing parametric train-delay insurance).  The JavaScript core
(journey codec, policy gates, payout resolution, delay calculation, the
/payouts and /delay request pipelines) is shallowly embedded below; strings
are lists of characters, JS numbers arising from date arithmetic are modelled
as exact integers (milliseconds) and rationals, thrown exceptions are
`Except.error`, and the opaque external collaborators (the payout matrix file,
the JS `Date` constructor, the tracking service) are explicit parameters.
-/

namespace CsiTrain

/-- JS strings are modelled as lists of characters. -/
abbrev Str := List Char

/-- Coerce a Lean string literal into the model's string type. -/
def strOf (s : String) : Str := s.toList

/-- The decimal digit characters, used to model JS number-to-string coercion
(`'leg_' + (i + 1)` in the source builds decimal numerals). -/
def digitChar (n : Nat) : Char :=
  match n with
  | 0 => '0' | 1 => '1' | 2 => '2' | 3 => '3' | 4 => '4'
  | 5 => '5' | 6 => '6' | 7 => '7' | 8 => '8' | _ => '9'

/-- Numeric value of a decimal digit character (inverse of `digitChar`). -/
def digitVal (c : Char) : Nat :=
  match c with
  | '0' => 0 | '1' => 1 | '2' => 2 | '3' => 3 | '4' => 4
  | '5' => 5 | '6' => 6 | '7' => 7 | '8' => 8 | _ => 9

/-- Standard decimal rendering of a natural number, exactly what JS produces
when an integer is coerced to a string. -/
def natToChars (n : Nat) : Str :=
  if _h : n < 10 then [digitChar n]
  else natToChars (n / 10) ++ [digitChar (n % 10)]
  termination_by n
  decreasing_by exact Nat.div_lt_self (by omega) (by omega)

/-- Evaluate a decimal numeral back to a number. -/
def charsToNat (s : Str) : Nat :=
  s.foldl (fun a c => a * 10 + digitVal c) 0

/-- The journey object key for the n-th leg: `'leg_' + n` in the source. -/
def legKey (n : Nat) : Str := strOf "leg_" ++ natToChars n

/-- One train segment, with the seven string fields fixed by the zugfinder
API shape (see `decode` in the source). -/
structure Leg where
  train : Str
  start_stop : Str
  start_time : Str
  start_date : Str
  arrival_stop : Str
  arrival_time : Str
  arrival_date : Str
deriving DecidableEq, Inhabited

/-- A journey is a JS object mapping keys (normally `leg_1..leg_n`) to legs;
JS objects preserve insertion order of non-integer keys, so the model is an
ordered association list. -/
abbrev Journey := List (Str × Leg)

/-- JS property access `journey[k]` on the association-list model. -/
def lookupKey (j : Journey) (k : Str) : Option Leg :=
  match j with
  | [] => none
  | (k2, l) :: t => if k2 = k then some l else lookupKey t k

/-! ### Journey codec (source: `decode`, src/unnamed/part_000 lines 339-373) -/

/-- `encoded.split(';')` from the source: split a string at every `';'`;
the empty string yields `[""]`, exactly as in JS. -/
def splitSemi (s : Str) : List Str :=
  match s with
  | [] => [[]]
  | c :: cs =>
    match splitSemi cs with
    | [] => [[]]
    | t :: ts => if c = ';' then [] :: t :: ts else (c :: t) :: ts

/-- `Array.prototype.join(sep)` for a one-character separator. -/
def joinWith (sep : Char) (l : List Str) : Str :=
  match l with
  | [] => []
  | [t] => t
  | t :: t2 :: ts => t ++ sep :: joinWith sep (t2 :: ts)

/-- The leg the source builds from tokens `values[i*7] .. values[i*7+6]`,
in the fixed field order. -/
def buildLeg (values : List Str) (i : Nat) : Leg :=
  { train := values.getD (i * 7) []
    start_stop := values.getD (i * 7 + 1) []
    start_time := values.getD (i * 7 + 2) []
    start_date := values.getD (i * 7 + 3) []
    arrival_stop := values.getD (i * 7 + 4) []
    arrival_time := values.getD (i * 7 + 5) []
    arrival_date := values.getD (i * 7 + 6) [] }

/-- `decode(_encoded)` from the source: split on `';'`; if the token count is
not a multiple of 7 return the empty journey, otherwise build one leg per
consecutive group of 7 tokens and key them `leg_1..leg_n`. -/
def decode (enc : Str) : Journey :=
  let values := splitSemi enc
  if values.length % 7 ≠ 0 then []
  else (List.range (values.length / 7)).map fun i => (legKey (i + 1), buildLeg values i)

/-- The seven fields of a leg in the fixed wire order
`train;start_stop;start_time;start_date;arrival_stop;arrival_time;arrival_date`. -/
def legFields (l : Leg) : List Str :=
  [l.train, l.start_stop, l.start_time, l.start_date,
   l.arrival_stop, l.arrival_time, l.arrival_date]

/-- Modelled from the spec: the contract-side encoder is not part of this
repository; per the spec's stated encoding format, the tokens of all legs,
in travel order and fixed field order, are joined by `';'`. -/
def encodeJourney (j : Journey) : Str :=
  joinWith ';' (j.flatMap fun p => legFields p.2)

/-- The canonical journey built from a list of legs with contiguous keys
`leg_k, leg_k+1, ...` (helper for stating round-trip and canonicity). -/
def mkJourneyFrom (k : Nat) (legs : List Leg) : Journey :=
  match legs with
  | [] => []
  | l :: ls => (legKey k, l) :: mkJourneyFrom (k + 1) ls

/-- A journey with contiguous keys `leg_1..leg_n` over the given legs. -/
def mkJourney (legs : List Leg) : Journey := mkJourneyFrom 1 legs

/-! ### Status constants (source lines 42-51) -/

def STATUS_OK : Nat := 0
def STATUS_SEV : Nat := 10
def STATUS_TIME : Nat := 20
def STATUS_PROBABILITY : Nat := 30
def STATUS_MISSING_DELAY : Nat := 40
def STATUS_ERROR : Nat := 100
def TIME_MIN : ℚ := 1
def TIME_MAX : ℚ := 10

/-! ### Policy gates (source: `checkTimeframe` lines 375-383,
`checkForRps` lines 385-395) -/

/-- `checkTimeframe(journey)`: the source computes
`diff = (departure - now) / (1000*60*60*24)` from the departure `Date` and
`Date.now()` and returns `true` when `diff <= TIME_MIN || diff >= TIME_MAX`,
falling off the end (JS `undefined`, modelled `none`) otherwise.  The two
millisecond instants are passed explicitly; JS `Date` construction is an
external concern. -/
def checkTimeframe (now departure : Int) : Option Bool :=
  let diff : ℚ := ((departure : ℚ) - (now : ℚ)) / (1000 * 60 * 60 * 24)
  if diff ≤ TIME_MIN ∨ diff ≥ TIME_MAX then some true else none

/-- JS truthiness of the `checkTimeframe` result: `undefined` is falsy. -/
def truthy (o : Option Bool) : Bool :=
  match o with
  | some b => b
  | none => false

/-- `String.prototype.toLowerCase()` (ASCII; no character outside ASCII
lower-cases to `'b'`, `'u'` or `'s'`, so this is exact for the RPS check). -/
def toLowerStr (s : Str) : Str := s.map Char.toLower

/-- `hay.includes(needle)`: substring containment as in JS. -/
def containsSub (needle : Str) : Str → Bool
  | [] => needle.isEmpty
  | c :: t => needle.isPrefixOf (c :: t) || containsSub needle t

/-- `checkForRps(journey)`: true when some leg's lower-cased `train` field
contains the substring `"bus"`, otherwise false. -/
def checkForRps (j : Journey) : Bool :=
  j.any fun p => containsSub (strOf "bus") (toLowerStr p.2.train)

/-! ### Leg validation (source: validator.js, Joi schemas) -/

def isDigit09 (c : Char) : Bool := '0' ≤ c && c ≤ '9'

/-- The Joi time pattern `^([0-2][0-9]):([0-5][0-9])$`. -/
def validTime (s : Str) : Bool :=
  match s with
  | [h1, h2, colon, m1, m2] =>
    ('0' ≤ h1 && h1 ≤ '2') && isDigit09 h2 && colon = ':' &&
    ('0' ≤ m1 && m1 ≤ '5') && isDigit09 m2
  | _ => false

/-- The Joi date pattern `^(2[0-9]{3})-([0-1][0-9])-([0-3][0-9])$`. -/
def validDate (s : Str) : Bool :=
  match s with
  | [y1, y2, y3, y4, d1, mo1, mo2, d2, da1, da2] =>
    y1 = '2' && isDigit09 y2 && isDigit09 y3 && isDigit09 y4 &&
    d1 = '-' && ('0' ≤ mo1 && mo1 ≤ '1') && isDigit09 mo2 &&
    d2 = '-' && ('0' ≤ da1 && da1 ≤ '3') && isDigit09 da2
  | _ => false

/-- `validateLeg(leg)` succeeds (no error messages): required string fields
are non-empty strings and the time/date fields match their patterns. -/
def validateLeg (l : Leg) : Bool :=
  !l.train.isEmpty && !l.start_stop.isEmpty &&
  validTime l.start_time && validDate l.start_date &&
  !l.arrival_stop.isEmpty && validTime l.arrival_time && validDate l.arrival_date

/-! ### Delay calculation (source: `calculateDelayMinutes` lines 475-489,
`retrieveArrivalDate` lines 402-421, the `/delay` handler lines 204-271) -/

/-- `calculateDelayMinutes(_scheduledDate, _realDate)` over millisecond
instants: if the observed instant is earlier than scheduled minus 4 hours,
add one day (the source's `setDate(getDate() + 1)` midnight-rollover fix),
then return the difference in minutes (`diff / 1000 / 60`). -/
def calculateDelayMinutes (sched real : Int) : ℚ :=
  let fixedReal : Int :=
    if real < sched - 4 * 60 * 60 * 1000 then real + 24 * 60 * 60 * 1000 else real
  ((fixedReal : ℚ) - (sched : ℚ)) / 1000 / 60

/-- The delay the `/delay` handler reports for the two arrival instants:
`calculateDelayMinutes` followed by the `if (delay < 0) delay = 0` clamp. -/
def delayReported (sched real : Int) : ℚ :=
  let d := calculateDelayMinutes sched real
  if d < 0 then 0 else d

/-- `retrieveArrivalDate(_journey)`: take the leg at key
`'leg_' + Object.keys(_journey).length`; combine its arrival date and time
into an instant via the JS `Date` machinery (an opaque, timezone-dependent
collaborator, passed in as `mkDate`); throw `'Missing Data'` when the leg is
absent. -/
def retrieveArrivalDate (mkDate : Str → Str → Int) (j : Journey) :
    Except String Int :=
  match lookupKey j (legKey j.length) with
  | some leg => .ok (mkDate leg.arrival_date leg.arrival_time)
  | none => .error "Missing Data"

/-- Response shape of the `/delay` endpoint. -/
structure DelayResponse where
  status : Nat
  delay : ℚ
deriving DecidableEq

/-- The two request shapes the `/delay` handler distinguishes: a body with a
`journey` field holding the encoded string (contract), or the body itself
being the journey object (website). -/
inductive DelayBody where
  | encoded (s : Str)
  | direct (j : Journey)

/-- The `/delay` handler (source lines 204-271).  `Except.error` models an
exception escaping the handler: the source has no try/catch around
`retrieveArrivalDate`, so a thrown `'Missing Data'` is never converted into
a response.  `tracking` is the external zugfinder service, mapping the
posted journey to the observed journey. -/
def delayHandler (mkDate : Str → Str → Int) (tracking : Journey → Journey)
    (body : DelayBody) : Except String DelayResponse :=
  let journey :=
    match body with
    | .encoded s => decode s
    | .direct j => j
  if journey.isEmpty then .ok ⟨STATUS_ERROR, 0⟩
  else if !(journey.all fun p => validateLeg p.2) then .ok ⟨STATUS_ERROR, 0⟩
  else
    match retrieveArrivalDate mkDate journey with
    | .error e => .error e
    | .ok sched =>
      match retrieveArrivalDate mkDate (tracking journey) with
      | .error e => .error e
      | .ok real => .ok ⟨STATUS_OK, delayReported sched real⟩

/-! ### Payout resolution (source: `/payouts` handler lines 84-196) -/

/-- The static payout matrix (payout.json): per-tier rows indexed by the
rounded probability.  Its numeric contents are opaque external data. -/
structure PayoutMatrix where
  small : Int → ℚ
  medium : Int → ℚ
  large : Int → ℚ

/-- The `payout` field of a `/payouts` response: a single amount or the
per-tier table returned for `type = all`. -/
inductive Payout where
  | num (q : ℚ)
  | table (s md lg : ℚ)
deriving DecidableEq

/-- Response shape of the `/payouts` endpoint. -/
structure PayoutResponse where
  status : Nat
  payout : Payout
deriving DecidableEq

/-- The validated `type` field: `small`, `medium`, `large` or `all`. -/
inductive ReqType where
  | small
  | medium
  | large
  | all
deriving DecidableEq

/-- The tail of the `/payouts` pipeline (source lines 169-195), after the
probability has been obtained from the cache or the prediction client:
refuse with `STATUS_PROBABILITY` when the unrounded probability exceeds 40,
otherwise round it up with `Math.ceil` and read the matrix for the requested
tier (all three tiers for `all`). -/
def payoutStage (m : PayoutMatrix) (p : ℚ) (ty : ReqType) : PayoutResponse :=
  if p > 40 then ⟨STATUS_PROBABILITY, .num 0⟩
  else
    let pr : Int := Int.ceil p
    match ty with
    | .all => ⟨STATUS_OK, .table (m.small pr) (m.medium pr) (m.large pr)⟩
    | .small => ⟨STATUS_OK, .num (m.small pr)⟩
    | .medium => ⟨STATUS_OK, .num (m.medium pr)⟩
    | .large => ⟨STATUS_OK, .num (m.large pr)⟩

/-- The timeframe branch of the `/payouts` handler (source lines 129-135):
a truthy `checkTimeframe` result short-circuits to `STATUS_TIME`
with payout 0. -/
def timeframeBranch (t : Option Bool) : Option PayoutResponse :=
  if truthy t then some ⟨STATUS_TIME, .num 0⟩ else none

/-! ### Journey selection in `/payouts` (source lines 87-98) -/

/-- A JS value arriving in the `journey` field of the request body: either a
string (the contract's encoded journey) or an object (the website's
structured journey). -/
inductive JsValue where
  | str (s : Str)
  | obj (j : Journey)

/-- How the handler obtained the journey it will work with: through the
decoder (where feeding it an object throws, since `split` only exists on
strings), or used directly. -/
inductive JourneySource where
  | viaDecoder (r : Except String Journey)
  | direct (v : JsValue)

/-- The dispatch at the top of the `/payouts` handler: the journey is decoded
iff `req.body.type != "all"`, otherwise it is used as supplied. -/
def selectPayoutsJourney (ty : Str) (jv : JsValue) : JourneySource :=
  if ty ≠ strOf "all" then
    match jv with
    | .str s => .viaDecoder (.ok (decode s))
    | .obj _ => .viaDecoder (.error "TypeError: split is not a function")
  else .direct jv

/-- Whether the dispatch routed the journey through the decoder. -/
def isViaDecoder (s : JourneySource) : Bool :=
  match s with
  | .viaDecoder _ => true
  | .direct _ => false

/-! ### Cache fingerprint (source line 147: `sha256(JSON.stringify(journey))`) -/

def lbrace : Char := Char.ofNat 123
def rbrace : Char := Char.ofNat 125

/-- JSON string escaping for the characters that matter here. -/
def escChar (c : Char) : Str :=
  if c = '"' ∨ c = '\\' then ['\\', c] else [c]

/-- `JSON.stringify` of a string value. -/
def stringifyStr (s : Str) : Str := '"' :: s.flatMap escChar ++ ['"']

/-- `JSON.stringify` of a leg object (fields in the fixed structure order,
which is how both `decode` and the documented website shape supply them). -/
def stringifyLeg (l : Leg) : Str :=
  [lbrace] ++
  stringifyStr (strOf "train") ++ [':'] ++ stringifyStr l.train ++ [','] ++
  stringifyStr (strOf "start_stop") ++ [':'] ++ stringifyStr l.start_stop ++ [','] ++
  stringifyStr (strOf "start_time") ++ [':'] ++ stringifyStr l.start_time ++ [','] ++
  stringifyStr (strOf "start_date") ++ [':'] ++ stringifyStr l.start_date ++ [','] ++
  stringifyStr (strOf "arrival_stop") ++ [':'] ++ stringifyStr l.arrival_stop ++ [','] ++
  stringifyStr (strOf "arrival_time") ++ [':'] ++ stringifyStr l.arrival_time ++ [','] ++
  stringifyStr (strOf "arrival_date") ++ [':'] ++ stringifyStr l.arrival_date ++
  [rbrace]

/-- `JSON.stringify(journey)`: keys serialized in the object's insertion
order, exactly as JS does for non-integer-like keys. -/
def stringifyJourney (j : Journey) : Str :=
  [lbrace] ++
  joinWith ',' (j.map fun p => stringifyStr p.1 ++ [':'] ++ stringifyLeg p.2) ++
  [rbrace]

/-- The cache key of the `/payouts` handler is `sha256` of this string; the
hash (the js-sha256 library) is an opaque deterministic function of it, so
two journeys are guaranteed the same cache entry exactly when this
serialization coincides. -/
def fingerprintInput (j : Journey) : Str := stringifyJourney j

/-! ## Supporting lemmas -/

lemma digitVal_digitChar {n : Nat} (h : n < 10) : digitVal (digitChar n) = n := by
  interval_cases n <;> rfl

lemma charsToNat_go (n : Nat) :
    ∀ a : Nat, List.foldl (fun a c => a * 10 + digitVal c) a (natToChars n) =
      a * 10 ^ (natToChars n).length + n := by
  induction n using Nat.strong_induction_on with
  | _ n ih =>
    intro a
    rw [natToChars]
    by_cases h : n < 10
    · simp [h, digitVal_digitChar h]
    · have hd : n / 10 < n := Nat.div_lt_self (by omega) (by omega)
      have hm : n % 10 < 10 := Nat.mod_lt _ (by omega)
      simp only [h, dite_false, List.foldl_append, List.foldl_cons, List.foldl_nil,
        List.length_append, List.length_cons, List.length_nil]
      rw [ih (n / 10) hd a, digitVal_digitChar hm]
      have := Nat.div_add_mod n 10
      ring_nf
      omega

lemma charsToNat_natToChars (n : Nat) : charsToNat (natToChars n) = n := by
  simpa [charsToNat] using charsToNat_go n 0

lemma natToChars_inj {a b : Nat} (h : natToChars a = natToChars b) : a = b := by
  have := congrArg charsToNat h
  rwa [charsToNat_natToChars, charsToNat_natToChars] at this

lemma legKey_inj {a b : Nat} (h : legKey a = legKey b) : a = b :=
  natToChars_inj (List.append_cancel_left h)

lemma splitSemi_ne_nil (s : Str) : splitSemi s ≠ [] := by
  induction s with
  | nil => simp [splitSemi]
  | cons c cs ih =>
    simp only [splitSemi]
    cases h : splitSemi cs with
    | nil => simp
    | cons t ts => by_cases hc : c = ';' <;> simp [hc]

lemma splitSemi_no_semi (t : Str) (h : ';' ∉ t) : splitSemi t = [t] := by
  induction t with
  | nil => rfl
  | cons c cs ih =>
    have hc : c ≠ ';' := fun e => h (by simp [e])
    have hcs : ';' ∉ cs := fun m => h (List.mem_cons_of_mem _ m)
    simp only [splitSemi]
    rw [ih hcs]
    simp [hc]

lemma splitSemi_append (t r : Str) (h : ';' ∉ t) :
    splitSemi (t ++ ';' :: r) = t :: splitSemi r := by
  induction t with
  | nil =>
    simp only [List.nil_append, splitSemi]
    cases hsr : splitSemi r with
    | nil => exact absurd hsr (splitSemi_ne_nil r)
    | cons a as => simp
  | cons c cs ih =>
    have hc : c ≠ ';' := fun e => h (by simp [e])
    have hcs : ';' ∉ cs := fun m => h (List.mem_cons_of_mem _ m)
    simp only [List.cons_append, splitSemi, List.append_eq]
    rw [ih hcs]
    simp [hc]

lemma splitSemi_joinWith (l : List Str) (hl : l ≠ [])
    (h : ∀ t ∈ l, ';' ∉ t) : splitSemi (joinWith ';' l) = l := by
  induction l with
  | nil => exact absurd rfl hl
  | cons t ts ih =>
    cases ts with
    | nil => simpa [joinWith] using splitSemi_no_semi t (h t (by simp))
    | cons t2 ts2 =>
      rw [joinWith, splitSemi_append t _ (h t (by simp)),
        ih (by simp) (fun x hx => h x (List.mem_cons_of_mem _ hx))]

lemma isPrefixOf_iff (a b : Str) : a.isPrefixOf b = true ↔ ∃ t, b = a ++ t := by
  induction a generalizing b with
  | nil => simp [List.isPrefixOf]
  | cons x xs ih =>
    cases b with
    | nil => simp [List.isPrefixOf]
    | cons y ys =>
      simp only [List.isPrefixOf, Bool.and_eq_true, beq_iff_eq, ih, List.cons_append]
      constructor
      · rintro ⟨rfl, t, rfl⟩
        exact ⟨t, rfl⟩
      · rintro ⟨t, ht⟩
        injection ht with h1 h2
        exact ⟨h1.symm, t, h2⟩

lemma containsSub_iff (needle hay : Str) :
    containsSub needle hay = true ↔ ∃ u w, hay = u ++ needle ++ w := by
  induction hay with
  | nil =>
    simp only [containsSub, List.isEmpty_iff]
    constructor
    · rintro rfl
      exact ⟨[], [], rfl⟩
    · rintro ⟨u, w, hu⟩
      rcases List.append_eq_nil.mp (List.append_eq_nil.mp hu.symm).1 with ⟨-, h2⟩
      exact h2
  | cons c t ih =>
    simp only [containsSub, Bool.or_eq_true, isPrefixOf_iff, ih]
    constructor
    · rintro (⟨w, hw⟩ | ⟨u, w, rfl⟩)
      · exact ⟨[], w, by simpa using hw⟩
      · exact ⟨c :: u, w, rfl⟩
    · rintro ⟨u, w, hu⟩
      cases u with
      | nil => exact Or.inl ⟨w, by simpa using hu⟩
      | cons x xs =>
        right
        injection hu with h1 h2
        exact ⟨xs, w, h2⟩

lemma map_eq_append_decomp {α β : Type} (f : α → β) (l : List α) (a b : List β)
    (h : l.map f = a ++ b) :
    ∃ a2 b2, l = a2 ++ b2 ∧ a2.map f = a ∧ b2.map f = b := by
  induction a generalizing l with
  | nil => exact ⟨[], l, rfl, rfl, by simpa using h⟩
  | cons x xs ih =>
    cases l with
    | nil => simp at h
    | cons y ys =>
      simp only [List.map_cons, List.cons_append] at h
      injection h with h1 h2
      obtain ⟨a2, b2, rfl, ha, hb⟩ := ih ys h2
      exact ⟨y :: a2, b2, rfl, by simp [h1, ha], hb⟩

/-- The code's test (lower-case the haystack, then look for `"bus"`) agrees
with the spec's reading (some substring of `train` case-insensitively equals
`"bus"`). -/
lemma containsSub_toLower_iff (s : Str) :
    containsSub (strOf "bus") (toLowerStr s) = true ↔
      ∃ u v w, s = u ++ v ++ w ∧ toLowerStr v = strOf "bus" := by
  rw [containsSub_iff]
  constructor
  · rintro ⟨u, w, hw⟩
    obtain ⟨a2, b2, rfl, ha, hb⟩ := map_eq_append_decomp _ s (u ++ strOf "bus") w
      (by simpa [toLowerStr, List.append_assoc] using hw)
    obtain ⟨u2, v2, rfl, hu2, hv2⟩ := map_eq_append_decomp _ a2 u (strOf "bus") ha
    exact ⟨u2, v2, b2, by simp, hv2⟩
  · rintro ⟨u, v, w, rfl, hv⟩
    exact ⟨toLowerStr u, toLowerStr w, by simp [toLowerStr, hv.symm]⟩

lemma length_mkJourneyFrom (legs : List Leg) : ∀ k,
    (mkJourneyFrom k legs).length = legs.length := by
  induction legs with
  | nil => intro k; rfl
  | cons l ls ih => intro k; simp [mkJourneyFrom, ih]

lemma map_fst_mkJourneyFrom (legs : List Leg) : ∀ k,
    (mkJourneyFrom k legs).map Prod.fst =
      (List.range legs.length).map (fun i => legKey (i + k)) := by
  induction legs with
  | nil => intro k; rfl
  | cons l ls ih =>
    intro k
    rw [mkJourneyFrom, List.map_cons, ih (k + 1), List.length_cons,
      List.range_succ_eq_map, List.map_cons, List.map_map]
    simp only [Nat.zero_add]
    congr 1
    apply List.map_congr_left
    intro i _
    simp only [Function.comp_apply]
    congr 1
    omega

lemma nodup_map_fst_mkJourneyFrom (legs : List Leg) (k : Nat) :
    ((mkJourneyFrom k legs).map Prod.fst).Nodup := by
  rw [map_fst_mkJourneyFrom]
  refine List.Nodup.map ?_ (List.nodup_range _)
  intro a b h
  have := legKey_inj h
  omega

lemma assoc_perm_eq : ∀ l1 l2 : List (Str × Leg),
    l1.map Prod.fst = l2.map Prod.fst → (l1.map Prod.fst).Nodup →
    l1.Perm l2 → l1 = l2 := by
  intro l1
  induction l1 with
  | nil =>
    intro l2 hk _ hp
    have := hp.length_eq
    cases l2 with
    | nil => rfl
    | cons q t2 => simp at this
  | cons p t ih =>
    intro l2 hk hnd hp
    cases l2 with
    | nil => exact absurd hp.length_eq (by simp)
    | cons q t2 =>
      simp only [List.map_cons] at hk
      injection hk with hk1 hk2
      simp only [List.map_cons, List.nodup_cons] at hnd
      obtain ⟨hnotin, hndt⟩ := hnd
      have hnotin2 : p.1 ∉ t2.map Prod.fst := hk2 ▸ hnotin
      have hpmem : p ∈ q :: t2 := hp.mem_iff.mp (by simp)
      have hpq : p = q := by
        rcases List.mem_cons.mp hpmem with h | h
        · exact h
        · exact absurd (List.mem_map_of_mem Prod.fst h) hnotin2
      subst hpq
      rw [ih t2 hk2 hndt hp.cons_inv]

lemma flatMap_mkJourneyFrom (legs : List Leg) : ∀ k,
    (mkJourneyFrom k legs).flatMap (fun p => legFields p.2) =
      legs.flatMap legFields := by
  induction legs with
  | nil => intro k; rfl
  | cons l ls ih => intro k; simp only [mkJourneyFrom, List.flatMap_cons, ih]

lemma length_flatMap_legFields (legs : List Leg) :
    (legs.flatMap legFields).length = 7 * legs.length := by
  induction legs with
  | nil => rfl
  | cons l ls ih =>
    simp only [List.flatMap_cons, List.length_append, ih, List.length_cons]
    simp [legFields]
    ring

lemma getD_flatMap_legFields (legs : List Leg) : ∀ i fk, i < legs.length → fk < 7 →
    (legs.flatMap legFields).getD (i * 7 + fk) [] =
      (legFields (legs.getD i default)).getD fk [] := by
  induction legs with
  | nil => intro i fk hi _; exact absurd hi (by simp)
  | cons l ls ih =>
    intro i fk hi hf
    cases i with
    | zero =>
      simp only [List.flatMap_cons, Nat.zero_mul, Nat.zero_add]
      rw [List.getD_append _ _ _ _ (by simp [legFields]; omega)]
      rfl
    | succ i2 =>
      simp only [List.flatMap_cons]
      rw [List.getD_append_right _ _ _ _ (by simp [legFields]; omega)]
      have harith : (i2 + 1) * 7 + fk - (legFields l).length = i2 * 7 + fk := by
        simp [legFields]; omega
      rw [harith]
      exact ih i2 fk (by simp only [List.length_cons] at hi; omega) hf

lemma buildLeg_flatMap (legs : List Leg) (i : Nat) (hi : i < legs.length) :
    buildLeg (legs.flatMap legFields) i = legs.getD i default := by
  have h0 := getD_flatMap_legFields legs i 0 hi (by omega)
  have h1 := getD_flatMap_legFields legs i 1 hi (by omega)
  have h2 := getD_flatMap_legFields legs i 2 hi (by omega)
  have h3 := getD_flatMap_legFields legs i 3 hi (by omega)
  have h4 := getD_flatMap_legFields legs i 4 hi (by omega)
  have h5 := getD_flatMap_legFields legs i 5 hi (by omega)
  simp only [Nat.add_zero] at h0
  have h6 := getD_flatMap_legFields legs i 6 hi (by omega)
  simp only [buildLeg, h0, h1, h2, h3, h4, h5, h6]
  rfl

lemma range_map_eq_mkJourneyFrom (legs : List Leg) : ∀ (k : Nat) (f : Nat → Leg),
    (∀ i, i < legs.length → f i = legs.getD i default) →
    (List.range legs.length).map (fun i => (legKey (i + k), f i)) =
      mkJourneyFrom k legs := by
  induction legs with
  | nil => intro k f _; rfl
  | cons l ls ih =>
    intro k f hf
    rw [List.length_cons, List.range_succ_eq_map, List.map_cons, List.map_map]
    have hhead : f 0 = l := hf 0 (by simp)
    rw [mkJourneyFrom]
    congr 1
    · simp [hhead]
    · rw [← ih (k + 1) (fun i => f (i + 1))
        (fun i hi => by simpa using hf (i + 1) (by simpa using hi))]
      apply List.map_congr_left
      intro i _
      simp only [Function.comp_apply]
      congr 2
      omega

lemma getD_map_range {α : Type} (g : Nat → α) (d : α) (n i : Nat) (h : i < n) :
    ((List.range n).map g).getD i d = g i := by
  rw [List.getD_eq_getElem _ _ (by simpa using h)]
  simp

lemma clamp_eq_max (d : ℚ) : (if d < 0 then 0 else d) = max 0 d := by
  rcases lt_or_le d 0 with h | h
  · rw [if_pos h, max_eq_left h.le]
  · rw [if_neg (not_lt.mpr h), max_eq_right h]

lemma decode_encode_mkJourney (legs : List Leg)
    (h : ∀ l ∈ legs, ∀ f ∈ legFields l, ';' ∉ f) :
    decode (encodeJourney (mkJourney legs)) = mkJourney legs := by
  cases legs with
  | nil => rfl
  | cons l0 ls0 =>
    have htok : encodeJourney (mkJourney (l0 :: ls0)) =
        joinWith ';' ((l0 :: ls0).flatMap legFields) := by
      rw [encodeJourney, mkJourney, flatMap_mkJourneyFrom]
    have hlen : ((l0 :: ls0).flatMap legFields).length = 7 * (l0 :: ls0).length :=
      length_flatMap_legFields _
    have hne : (l0 :: ls0).flatMap legFields ≠ [] := by
      intro e
      rw [e] at hlen
      simp at hlen
    have hnosemi : ∀ t ∈ (l0 :: ls0).flatMap legFields, ';' ∉ t := by
      intro t ht
      obtain ⟨l, hl, htl⟩ := List.mem_flatMap.mp ht
      exact h l hl t htl
    rw [htok]
    simp only [decode, splitSemi_joinWith _ hne hnosemi, hlen]
    have hmod : 7 * (l0 :: ls0).length % 7 = 0 := Nat.mul_mod_right 7 _
    have hdiv : 7 * (l0 :: ls0).length / 7 = (l0 :: ls0).length :=
      Nat.mul_div_cancel_left _ (by norm_num)
    simp only [hmod, hdiv, ne_eq, not_true_eq_false, if_false]
    exact range_map_eq_mkJourneyFrom (l0 :: ls0) 1 _
      (fun i hi => buildLeg_flatMap _ i hi)

lemma calculateDelayMinutes_eq (s r : Int) :
    calculateDelayMinutes s r =
      ((if r < s - 4 * 60 * 60 * 1000 then (r : ℚ) + 24 * 60 * 60 * 1000
        else (r : ℚ)) - (s : ℚ)) / 60000 := by
  unfold calculateDelayMinutes
  by_cases hc : r < s - 4 * 60 * 60 * 1000
  · simp only [hc, if_true]
    push_cast
    ring
  · simp only [hc, if_false]
    ring

/-! ## Concrete sample data used in witnesses and counterexamples -/

def legICE : Leg :=
  { train := strOf "ICE 123"
    start_stop := strOf "Leipzig HBF"
    start_time := strOf "10:00"
    start_date := strOf "2023-09-19"
    arrival_stop := strOf "Berlin HBF"
    arrival_time := strOf "11:00"
    arrival_date := strOf "2023-09-19" }

def legIC : Leg :=
  { train := strOf "IC 705"
    start_stop := strOf "Berlin HBF"
    start_time := strOf "11:30"
    start_date := strOf "2023-09-19"
    arrival_stop := strOf "Hamburg HBF"
    arrival_time := strOf "13:00"
    arrival_date := strOf "2023-09-19" }

def legBusRps : Leg :=
  { legICE with train := strOf "Schienenersatzverkehr Bus 12" }

def legBUS : Leg :=
  { legICE with train := strOf "BUS" }

/-- A sample payout matrix standing in for the opaque payout.json data. -/
def m0 : PayoutMatrix := ⟨fun _ => 1, fun _ => 2, fun _ => 3⟩

lemma natToChars_one : natToChars 1 = ['1'] := by
  rw [natToChars]
  norm_num
  rfl

lemma legKey_one : legKey 1 = strOf "leg_1" := by
  rw [legKey, natToChars_one]
  rfl

/-! ## Claim theorems -/

/-- C1: for every scheduled arrival instant s and observed arrival instant r,
the delay reported by the /delay pipeline equals
max(0, (r2 - s) / 60000) minutes, where r2 is r plus one day when r is
earlier than s minus 4 hours and r unchanged otherwise; a scheduled arrival
at 23:50 with an observed arrival reported as 00:10 on the same calendar
date (85800000 ms and 600000 ms into the day) yields 20 minutes, and the
reported delay is never negative. -/
theorem delay_pipeline_rollover_and_clamp :
    (∀ s r : Int,
      delayReported s r =
        max 0 (((if r < s - 4 * 60 * 60 * 1000 then (r : ℚ) + 24 * 60 * 60 * 1000
          else (r : ℚ)) - (s : ℚ)) / 60000) ∧
      0 ≤ delayReported s r) ∧
    delayReported 85800000 600000 = 20 := by
  have hmax : ∀ s r : Int, delayReported s r = max 0 (calculateDelayMinutes s r) :=
    fun s r => clamp_eq_max _
  refine ⟨fun s r => ⟨?_, ?_⟩, ?_⟩
  · rw [hmax, calculateDelayMinutes_eq]
  · rw [hmax]
    exact le_max_left _ _
  · rw [hmax, calculateDelayMinutes_eq]
    norm_num

/-- C2: in the /payouts pipeline, a probability strictly greater than 40
yields status STATUS_PROBABILITY with payout 0 and no matrix lookup (the
response does not depend on the matrix); a probability less than or equal to
40 (including exactly 40) proceeds to payout resolution with status
STATUS_OK; the comparison uses the unrounded probability. -/
theorem probability_cap_before_rounding (m m2 : PayoutMatrix) (p : ℚ) (ty : ReqType) :
    (p > 40 → payoutStage m p ty = ⟨STATUS_PROBABILITY, .num 0⟩ ∧
      payoutStage m p ty = payoutStage m2 p ty) ∧
    (p ≤ 40 → (payoutStage m p ty).status = STATUS_OK) := by
  constructor
  · intro h
    constructor <;> simp [payoutStage, h]
  · intro h
    have hng : ¬ p > 40 := not_lt.mpr h
    cases ty <;> simp [payoutStage, hng]

/-- Witness for C2: probability 40.01 is rejected with zero payout,
probability exactly 40 proceeds to resolution. -/
theorem probability_cap_witness :
    payoutStage m0 (4001 / 100) ReqType.small = ⟨STATUS_PROBABILITY, .num 0⟩ ∧
    (payoutStage m0 40 ReqType.small).status = STATUS_OK :=
  ⟨((probability_cap_before_rounding m0 m0 (4001 / 100) .small).1 (by norm_num)).1,
    (probability_cap_before_rounding m0 m0 40 .small).2 (by norm_num)⟩

/-- C3: for every accepted probability p (p <= 40) and requested tier, the
response has status STATUS_OK and payout equal to the matrix entry at row
ceil(p) of the requested tier; for `all` it is the per-tier mapping at the
same row; p = 12.3 reads row 13. -/
theorem payout_resolution_ceiling (m : PayoutMatrix) :
    (∀ p : ℚ, p ≤ 40 →
      payoutStage m p .small = ⟨STATUS_OK, .num (m.small (Int.ceil p))⟩ ∧
      payoutStage m p .medium = ⟨STATUS_OK, .num (m.medium (Int.ceil p))⟩ ∧
      payoutStage m p .large = ⟨STATUS_OK, .num (m.large (Int.ceil p))⟩ ∧
      payoutStage m p .all = ⟨STATUS_OK,
        .table (m.small (Int.ceil p)) (m.medium (Int.ceil p)) (m.large (Int.ceil p))⟩) ∧
    payoutStage m (123 / 10) .small = ⟨STATUS_OK, .num (m.small 13)⟩ := by
  have hbody : ∀ p : ℚ, p ≤ 40 →
      payoutStage m p .small = ⟨STATUS_OK, .num (m.small (Int.ceil p))⟩ ∧
      payoutStage m p .medium = ⟨STATUS_OK, .num (m.medium (Int.ceil p))⟩ ∧
      payoutStage m p .large = ⟨STATUS_OK, .num (m.large (Int.ceil p))⟩ ∧
      payoutStage m p .all = ⟨STATUS_OK,
        .table (m.small (Int.ceil p)) (m.medium (Int.ceil p)) (m.large (Int.ceil p))⟩ := by
    intro p hp
    have hng : ¬ p > 40 := not_lt.mpr hp
    refine ⟨?_, ?_, ?_, ?_⟩ <;> simp [payoutStage, hng]
  refine ⟨hbody, ?_⟩
  have hceil : Int.ceil ((123 : ℚ) / 10) = 13 := by
    rw [Int.ceil_eq_iff]
    norm_num
  have := (hbody (123 / 10) (by norm_num)).1
  rwa [hceil] at this

/-- Witness for C3: an accepted probability resolves against the sample
matrix at the ceiling row for every tier. -/
theorem payout_resolution_witness :
    (25 : ℚ) ≤ 40 ∧
    payoutStage m0 25 ReqType.all = ⟨STATUS_OK,
      .table (m0.small (Int.ceil (25 : ℚ))) (m0.medium (Int.ceil (25 : ℚ)))
        (m0.large (Int.ceil (25 : ℚ)))⟩ :=
  ⟨by norm_num, ((payout_resolution_ceiling m0).1 25 (by norm_num)).2.2.2⟩

/-- C4: the timeframe check reports out-of-timeframe (truthy, which the
handler turns into STATUS_TIME with payout 0) exactly when
diffDays <= 1 or diffDays >= 10, returns no signal (JS undefined) strictly
inside the window, and on the boundaries: exactly 1 day and exactly 10 days
away are rejected, 1.5 and 9.999 days away are accepted. -/
theorem timeframe_window_boundaries :
    (∀ now dep : Int,
      (checkTimeframe now dep = some true ↔
        ((dep : ℚ) - (now : ℚ)) / (1000 * 60 * 60 * 24) ≤ 1 ∨
          ((dep : ℚ) - (now : ℚ)) / (1000 * 60 * 60 * 24) ≥ 10) ∧
      (checkTimeframe now dep = none ↔
        1 < ((dep : ℚ) - (now : ℚ)) / (1000 * 60 * 60 * 24) ∧
          ((dep : ℚ) - (now : ℚ)) / (1000 * 60 * 60 * 24) < 10) ∧
      (checkTimeframe now dep = some true →
        timeframeBranch (checkTimeframe now dep) = some ⟨STATUS_TIME, .num 0⟩)) ∧
    checkTimeframe 0 86400000 = some true ∧
    checkTimeframe 0 864000000 = some true ∧
    checkTimeframe 0 129600000 = none ∧
    checkTimeframe 0 863913600 = none := by
  have hmain : ∀ now dep : Int,
      (checkTimeframe now dep = some true ↔
        ((dep : ℚ) - (now : ℚ)) / (1000 * 60 * 60 * 24) ≤ 1 ∨
          ((dep : ℚ) - (now : ℚ)) / (1000 * 60 * 60 * 24) ≥ 10) ∧
      (checkTimeframe now dep = none ↔
        1 < ((dep : ℚ) - (now : ℚ)) / (1000 * 60 * 60 * 24) ∧
          ((dep : ℚ) - (now : ℚ)) / (1000 * 60 * 60 * 24) < 10) := by
    intro now dep
    simp only [checkTimeframe, TIME_MIN, TIME_MAX]
    by_cases hc : ((dep : ℚ) - (now : ℚ)) / (1000 * 60 * 60 * 24) ≤ 1 ∨
        ((dep : ℚ) - (now : ℚ)) / (1000 * 60 * 60 * 24) ≥ 10
    · constructor
      · simp [hc]
      · simp only [hc, if_true]
        constructor
        · intro h
          exact absurd h (by simp)
        · intro h
          rcases hc with h1 | h1
          · exact absurd h1 (not_le.mpr h.1)
          · exact absurd h1 (not_le.mpr h.2)
    · have hneg := hc
      push_neg at hc
      constructor
      · rw [if_neg hneg]
        constructor
        · intro h
          exact absurd h (by simp)
        · intro h
          exact absurd h hneg
      · rw [if_neg hneg]
        simp [hc.1, hc.2]
  refine ⟨fun now dep => ⟨(hmain now dep).1, (hmain now dep).2, ?_⟩, ?_, ?_, ?_, ?_⟩
  · intro h
    rw [h]
    rfl
  · exact (hmain 0 86400000).1.mpr (by norm_num)
  · exact (hmain 0 864000000).1.mpr (by norm_num)
  · exact (hmain 0 129600000).2.mpr (by norm_num)
  · exact (hmain 0 863913600).2.mpr (by norm_num)

/-- Witness for C4: a departure at the current instant is out of timeframe
and produces the STATUS_TIME rejection with payout 0. -/
theorem timeframe_window_witness :
    checkTimeframe 0 0 = some true ∧
    timeframeBranch (checkTimeframe 0 0) = some ⟨STATUS_TIME, .num 0⟩ := by
  have h : checkTimeframe 0 0 = some true :=
    ((timeframe_window_boundaries.1 0 0).1).mpr (by norm_num)
  exact ⟨h, (timeframe_window_boundaries.1 0 0).2.2 h⟩

/-- C5: decode returns the empty journey when the number of ';'-separated
tokens is not a multiple of 7; otherwise it produces one leg per consecutive
group of 7 tokens in the fixed field order, in order, keyed leg_1..leg_n.
(The function is a total Lean definition, so purity/totality hold by
construction.) -/
theorem decode_grouping (enc : Str) :
    (¬ (splitSemi enc).length % 7 = 0 → decode enc = []) ∧
    ((splitSemi enc).length % 7 = 0 →
      (decode enc).length = (splitSemi enc).length / 7 ∧
      ∀ i, i < (splitSemi enc).length / 7 →
        (decode enc).getD i default =
          (legKey (i + 1),
           { train := (splitSemi enc).getD (i * 7) []
             start_stop := (splitSemi enc).getD (i * 7 + 1) []
             start_time := (splitSemi enc).getD (i * 7 + 2) []
             start_date := (splitSemi enc).getD (i * 7 + 3) []
             arrival_stop := (splitSemi enc).getD (i * 7 + 4) []
             arrival_time := (splitSemi enc).getD (i * 7 + 5) []
             arrival_date := (splitSemi enc).getD (i * 7 + 6) [] })) := by
  constructor
  · intro h
    simp [decode, h]
  · intro h
    constructor
    · simp [decode, h]
    · intro i hi
      simp only [decode, h, ne_eq, not_true_eq_false, if_false]
      rw [getD_map_range _ _ _ _ hi]
      rfl

/-- Witness for C5: a 2-token string decodes to the empty journey; a 7-token
string decodes to a single leg keyed leg_1 carrying the tokens in order. -/
theorem decode_grouping_witness :
    decode (strOf "a;b") = [] ∧
    (decode (strOf "t;a;10:00;2023-01-01;b;11:00;2023-01-01")).length = 1 ∧
    (decode (strOf "t;a;10:00;2023-01-01;b;11:00;2023-01-01")).getD 0 default =
      (legKey 1,
       { train := strOf "t"
         start_stop := strOf "a"
         start_time := strOf "10:00"
         start_date := strOf "2023-01-01"
         arrival_stop := strOf "b"
         arrival_time := strOf "11:00"
         arrival_date := strOf "2023-01-01" }) := by
  refine ⟨(decode_grouping _).1 (by decide), ?_, ?_⟩
  · have h := ((decode_grouping (strOf "t;a;10:00;2023-01-01;b;11:00;2023-01-01")).2
      (by decide)).1
    rw [h]
    decide
  · have h := ((decode_grouping (strOf "t;a;10:00;2023-01-01;b;11:00;2023-01-01")).2
      (by decide)).2 0 (by decide)
    rw [h]
    exact congrArg₂ Prod.mk rfl (by decide)

/-- C6 counterexample: a journey whose single leg is keyed leg_2 (so leg_1,
the expected key for a 1-leg journey, is missing) passes the handler's
emptiness and validation checks, reaches `retrieveArrivalDate`, and the
thrown `'Missing Data'` error escapes the `/delay` handler (the source has
no try/catch), contradicting the claim that it is converted into the
endpoint's standard response shape. -/
theorem delay_missing_leg_uncaught_counterexample :
    delayHandler (fun _ _ => 0) id (.direct [(strOf "leg_2", legICE)]) =
      .error "Missing Data" := by
  have hval : validateLeg legICE = true := by decide
  have hmiss : lookupKey [(strOf "leg_2", legICE)] (legKey 1) = none := by
    rw [legKey_one]
    decide
  simp [delayHandler, retrieveArrivalDate, hmiss, hval]

/-- C6 amended: a journey lacking the expected last leg that passes the
emptiness and per-leg validation checks makes the `/delay` handler propagate
the `'Missing Data'` exception as an unhandled fault — it is NOT caught at
the pipeline boundary and never becomes a standard response. -/
theorem delay_missing_leg_uncaught (mkDate : Str → Str → Int)
    (tracking : Journey → Journey) (j : Journey) (hne : j ≠ [])
    (hval : ∀ p ∈ j, validateLeg p.2 = true)
    (hmiss : lookupKey j (legKey j.length) = none) :
    delayHandler mkDate tracking (.direct j) = .error "Missing Data" := by
  have hempty : j.isEmpty = false := by
    cases j with
    | nil => exact absurd rfl hne
    | cons a t => rfl
  have hall : (j.all fun p => validateLeg p.2) = true :=
    List.all_eq_true.mpr hval
  simp [delayHandler, retrieveArrivalDate, hempty, hall, hmiss]

/-- Witness for the amended C6 at a concrete input. -/
theorem delay_missing_leg_uncaught_witness :
    delayHandler (fun _ _ => 7) id (.direct [(strOf "leg_5", legIC)]) =
      .error "Missing Data" := by
  refine delay_missing_leg_uncaught _ _ _ (by decide) (by decide) ?_
  have hlen : ([(strOf "leg_5", legIC)] : Journey).length = 1 := rfl
  rw [hlen, legKey_one]
  decide

/-- C7 counterexample: two journeys that are equal as mappings from keys to
legs (a permutation with duplicate-free keys, and pointwise-equal lookups)
but supplied in different key order serialize differently, so the sha256
cache fingerprints are computed from different strings and the journeys are
not guaranteed the same cache entry. -/
theorem fingerprint_key_order_counterexample :
    ([(strOf "leg_1", legICE), (strOf "leg_2", legIC)] : Journey).Perm
      [(strOf "leg_2", legIC), (strOf "leg_1", legICE)] ∧
    (([(strOf "leg_1", legICE), (strOf "leg_2", legIC)] : Journey).map Prod.fst).Nodup ∧
    (∀ k : Str, lookupKey [(strOf "leg_1", legICE), (strOf "leg_2", legIC)] k =
      lookupKey [(strOf "leg_2", legIC), (strOf "leg_1", legICE)] k) ∧
    fingerprintInput [(strOf "leg_1", legICE), (strOf "leg_2", legIC)] ≠
      fingerprintInput [(strOf "leg_2", legIC), (strOf "leg_1", legICE)] := by
  refine ⟨List.Perm.swap _ _ _, by decide, ?_, by decide⟩
  intro k
  by_cases h1 : strOf "leg_1" = k
  · subst h1
    decide
  · by_cases h2 : strOf "leg_2" = k
    · subst h2
      decide
    · simp [lookupKey, h1, h2]

/-- C7 amended: the fingerprint is computed from the JSON serialization in
the supplied key order, so determinism over journey content is guaranteed
exactly for journeys in the canonical contiguous leg_1..leg_n key order: two
canonically-keyed journeys that are equal as mappings (a permutation of one
another) have equal serializations and hence the same cache fingerprint. -/
theorem fingerprint_canonical_deterministic (legs1 legs2 : List Leg)
    (hp : (mkJourney legs1).Perm (mkJourney legs2)) :
    fingerprintInput (mkJourney legs1) = fingerprintInput (mkJourney legs2) := by
  have hlen : legs1.length = legs2.length := by
    have h := hp.length_eq
    rwa [mkJourney, mkJourney, length_mkJourneyFrom, length_mkJourneyFrom] at h
  have hkeys : (mkJourney legs1).map Prod.fst = (mkJourney legs2).map Prod.fst := by
    rw [mkJourney, mkJourney, map_fst_mkJourneyFrom, map_fst_mkJourneyFrom, hlen]
  have heq : mkJourney legs1 = mkJourney legs2 :=
    assoc_perm_eq _ _ hkeys (nodup_map_fst_mkJourneyFrom legs1 1) hp
  rw [heq]

/-- Witness for the amended C7 at a concrete input. -/
theorem fingerprint_canonical_witness :
    fingerprintInput (mkJourney [legICE, legIC]) =
      fingerprintInput (mkJourney [legICE, legIC]) :=
  fingerprint_canonical_deterministic [legICE, legIC] [legICE, legIC]
    (List.Perm.refl _)

/-- C8: the rail-replacement check returns true exactly when some leg's
train field contains the substring "bus" case-insensitively (some substring
lower-cases to "bus"); a leg with train "Schienenersatzverkehr Bus 12" or
"BUS" is flagged, "ICE 123" is not, and it returns false when no leg
matches. -/
theorem rps_detection :
    (∀ j : Journey, checkForRps j = true ↔
      ∃ p ∈ j, ∃ u v w, p.2.train = u ++ v ++ w ∧ toLowerStr v = strOf "bus") ∧
    checkForRps [(strOf "leg_1", legBusRps)] = true ∧
    checkForRps [(strOf "leg_1", legBUS)] = true ∧
    checkForRps [(strOf "leg_1", legICE)] = false := by
  refine ⟨?_, by decide, by decide, by decide⟩
  intro j
  rw [checkForRps, List.any_eq_true]
  constructor
  · rintro ⟨p, hp, hc⟩
    exact ⟨p, hp, (containsSub_toLower_iff _).mp hc⟩
  · rintro ⟨p, hp, hsub⟩
    exact ⟨p, hp, (containsSub_toLower_iff _).mpr hsub⟩

/-- C9: decoding is a left inverse of encoding: a journey with contiguous
legs leg_1..leg_n whose field values contain no ';' character, encoded by
joining the 7 fields of each leg in the fixed order with ';', decodes back
to the original journey. -/
theorem decode_encode_roundtrip (legs : List Leg)
    (h : ∀ l ∈ legs, ∀ f ∈ legFields l, ';' ∉ f) :
    decode (encodeJourney (mkJourney legs)) = mkJourney legs :=
  decode_encode_mkJourney legs h

/-- Witness for C9 at a concrete two-leg journey. -/
theorem decode_encode_roundtrip_witness :
    decode (encodeJourney (mkJourney [legICE, legIC])) = mkJourney [legICE, legIC] :=
  decode_encode_roundtrip [legICE, legIC] (by decide)

/-- C10: in /payouts, whether the journey is decoded from the wire encoding
is decided solely by the type field: the decoder path is taken iff
type is not "all", independently of the shape of the journey value; in
particular a structured Journey submitted with a non-"all" type is fed to
the decoder (where calling split on an object throws) rather than used
directly, and with type "all" the value is used exactly as supplied. -/
theorem payouts_dispatch_on_type_only :
    (∀ (ty : Str) (jv jv2 : JsValue),
      (isViaDecoder (selectPayoutsJourney ty jv) = true ↔ ty ≠ strOf "all") ∧
      isViaDecoder (selectPayoutsJourney ty jv) =
        isViaDecoder (selectPayoutsJourney ty jv2) ∧
      (ty = strOf "all" → selectPayoutsJourney ty jv = .direct jv)) ∧
    (∀ j : Journey, selectPayoutsJourney (strOf "small") (.obj j) =
      .viaDecoder (.error "TypeError: split is not a function")) ∧
    (∀ s : Str, selectPayoutsJourney (strOf "small") (.str s) =
      .viaDecoder (.ok (decode s))) := by
  have hsmall : strOf "small" ≠ strOf "all" := by decide
  refine ⟨?_, ?_, ?_⟩
  · intro ty jv jv2
    by_cases hty : ty = strOf "all"
    · subst hty
      simp [selectPayoutsJourney, isViaDecoder]
    · cases jv <;> cases jv2 <;>
        simp [selectPayoutsJourney, isViaDecoder, hty]
  · intro j
    simp [selectPayoutsJourney, hsmall]
  · intro s
    simp [selectPayoutsJourney, hsmall]

/-- Witness for C10: with type "all" the supplied object is used directly;
with type "small" the same object is routed to the decoder. -/
theorem payouts_dispatch_witness :
    selectPayoutsJourney (strOf "all") (.obj [(strOf "leg_1", legICE)]) =
      .direct (.obj [(strOf "leg_1", legICE)]) ∧
    isViaDecoder (selectPayoutsJourney (strOf "small")
      (.obj [(strOf "leg_1", legICE)])) = true :=
  ⟨(payouts_dispatch_on_type_only.1 (strOf "all") (.obj [(strOf "leg_1", legICE)])
      (.obj [(strOf "leg_1", legICE)])).2.2 rfl,
    ((payouts_dispatch_on_type_only.1 (strOf "small") (.obj [(strOf "leg_1", legICE)])
      (.obj [(strOf "leg_1", legICE)])).1).mpr (by decide)⟩

end CsiTrain
